import Mathlib

/-!
Verification of the `Camera` class of `src/include/learnopengl/camera.h`
(surround_view_monitor).  The camera state and its mutating operations are
embedded over exact real arithmetic: `glm::vec3` becomes `Vec3` with real
components, the angle fields and tuning parameters become reals, and each
C++ member function becomes a pure state-transformer `Camera → … → Camera`.
`glm::radians` converts with the exact constant `π / 180`, while the class's
own `degree_to_radian` uses the macro constant `PI = 3.14159`, as in the
source.
-/

noncomputable section

/-- 3-component vector with real coordinates, modelling `glm::vec3`. -/
@[ext]
structure Vec3 where
  x : ℝ
  y : ℝ
  z : ℝ

namespace Vec3

/-- Componentwise addition (`glm` `operator+`). -/
def add (a b : Vec3) : Vec3 := ⟨a.x + b.x, a.y + b.y, a.z + b.z⟩

/-- Componentwise subtraction (`glm` `operator-`). -/
def sub (a b : Vec3) : Vec3 := ⟨a.x - b.x, a.y - b.y, a.z - b.z⟩

/-- Scalar multiple (`glm` `vec * scalar`). -/
def smul (t : ℝ) (v : Vec3) : Vec3 := ⟨t * v.x, t * v.y, t * v.z⟩

/-- Dot product (`glm::dot`). -/
def dot (a b : Vec3) : ℝ := a.x * b.x + a.y * b.y + a.z * b.z

/-- Cross product (`glm::cross`). -/
def cross (a b : Vec3) : Vec3 :=
  ⟨a.y * b.z - a.z * b.y, a.z * b.x - a.x * b.z, a.x * b.y - a.y * b.x⟩

/-- Squared Euclidean norm. -/
def normSq (v : Vec3) : ℝ := v.dot v

/-- Euclidean norm (`glm::length`). -/
def norm (v : Vec3) : ℝ := Real.sqrt v.normSq

/-- Normalisation (`glm::normalize`): the vector divided by its norm. -/
def normalize (v : Vec3) : Vec3 := ⟨v.x / v.norm, v.y / v.norm, v.z / v.norm⟩

/-- The zero vector. -/
def zero : Vec3 := ⟨0, 0, 0⟩

/-- Two vectors are parallel when their cross product vanishes. -/
def parallel (a b : Vec3) : Prop := a.cross b = zero

end Vec3

/-- Default yaw, `const float YAW = -90.0f`. -/
def YAW : ℝ := -90

/-- Default pitch, `const float PITCH = 0.0f`. -/
def PITCH : ℝ := 0

/-- Default movement speed, `const float SPEED = 2.5f`. -/
def SPEED : ℝ := 2.5

/-- Default mouse sensitivity, `const float SENSITIVITY = 0.1f`. -/
def SENSITIVITY : ℝ := 0.1

/-- Default zoom, `const float ZOOM = 45.0f`. -/
def ZOOM : ℝ := 45

/-- The macro constant `PI = 3.14159` used by `degree_to_radian`. -/
def PI : ℝ := 3.14159

/-- `glm::radians`: exact degrees-to-radians conversion. -/
def radians (degrees : ℝ) : ℝ := degrees * (Real.pi / 180)

/-- The movement-direction enum `Camera_Movement`. -/
inductive Camera_Movement where
  | FORWARD
  | BACKWARD
  | LEFT
  | RIGHT
deriving DecidableEq

/-- The camera state: every data member of class `Camera`. -/
@[ext]
structure Camera where
  Position : Vec3
  Front : Vec3
  Up : Vec3
  Right : Vec3
  WorldUp : Vec3
  Yaw : ℝ
  Pitch : ℝ
  MovementSpeed : ℝ
  MouseSensitivity : ℝ
  Zoom : ℝ

namespace Camera

/-- The raw (pre-normalisation) front vector computed inside
`updateCameraVectors` from yaw and pitch in degrees. -/
def rawFront (yaw pitch : ℝ) : Vec3 :=
  ⟨Real.cos (radians yaw) * Real.cos (radians pitch),
   Real.sin (radians pitch),
   Real.sin (radians yaw) * Real.cos (radians pitch)⟩

/-- `Camera::updateCameraVectors`: recompute `Front`, then `Right`, then `Up`
from the current yaw, pitch and `WorldUp`, in that order. -/
def updateCameraVectors (c : Camera) : Camera :=
  let front := rawFront c.Yaw c.Pitch
  let newFront := front.normalize
  let newRight := (newFront.cross c.WorldUp).normalize
  let newUp := (newRight.cross newFront).normalize
  { c with Front := newFront, Right := newRight, Up := newUp }

/-- The vector constructor `Camera(position, up, yaw, pitch)`: member
initialisers set `Front = (0,0,-1)`, speed/sensitivity/zoom to their
defaults; the body assigns the remaining fields and calls
`updateCameraVectors`.  `Up` and `Right` are uninitialised in C++ before
`updateCameraVectors` overwrites them; here they start at zero. -/
def init (position up : Vec3) (yaw pitch : ℝ) : Camera :=
  updateCameraVectors
    { Position := position
      Front := ⟨0, 0, -1⟩
      Up := Vec3.zero
      Right := Vec3.zero
      WorldUp := up
      Yaw := yaw
      Pitch := pitch
      MovementSpeed := SPEED
      MouseSensitivity := SENSITIVITY
      Zoom := ZOOM }

/-- `Camera::ProcessKeyboard`: translate `Position` along `Front` or `Right`
by `MovementSpeed * deltaTime`; the four `if`s of the source are applied in
sequence. -/
def ProcessKeyboard (c : Camera) (direction : Camera_Movement) (deltaTime : ℝ) : Camera :=
  let velocity := c.MovementSpeed * deltaTime
  let p1 := if direction = Camera_Movement.FORWARD then
      c.Position.add (Vec3.smul velocity c.Front) else c.Position
  let p2 := if direction = Camera_Movement.BACKWARD then
      p1.sub (Vec3.smul velocity c.Front) else p1
  let p3 := if direction = Camera_Movement.LEFT then
      p2.sub (Vec3.smul velocity c.Right) else p2
  let p4 := if direction = Camera_Movement.RIGHT then
      p3.add (Vec3.smul velocity c.Right) else p3
  { c with Position := p4 }

/-- `Camera::ProcessMouseMovement`: scale the offsets by the sensitivity,
accumulate into yaw and pitch, optionally clamp pitch to `[-89, 89]` (upper
bound checked first, then lower), then recompute the basis. -/
def ProcessMouseMovement (c : Camera) (xoffset yoffset : ℝ) (constrainPitch : Bool) : Camera :=
  let xoff := xoffset * c.MouseSensitivity
  let yoff := yoffset * c.MouseSensitivity
  let yaw := c.Yaw + xoff
  let pitch0 := c.Pitch + yoff
  let pitch :=
    if constrainPitch then
      let p1 := if pitch0 > 89 then (89 : ℝ) else pitch0
      if p1 < -89 then (-89 : ℝ) else p1
    else pitch0
  updateCameraVectors { c with Yaw := yaw, Pitch := pitch }

/-- `Camera::distance_from_camera_to_target`: Euclidean distance between the
two points. -/
def distance_from_camera_to_target (camera_position target_position : Vec3) : ℝ :=
  let distance_x := camera_position.x - target_position.x
  let distance_y := camera_position.y - target_position.y
  let distance_z := camera_position.z - target_position.z
  Real.sqrt (distance_x * distance_x + distance_y * distance_y + distance_z * distance_z)

/-- `Camera::degree_to_radian`: division by 180 and multiplication by the
macro constant `PI = 3.14159` (not the exact `π` used by `glm::radians`). -/
def degree_to_radian (degree : ℝ) : ℝ := degree / 180 * PI

/-- `Camera::move_camera_in_sphere`: subtract the scaled offsets from yaw and
pitch, convert both with `degree_to_radian`, measure the current distance to
the target, place `Position` back on the sphere of that radius, and recompute
the basis. -/
def move_camera_in_sphere (c : Camera) (xoffset yoffset : ℝ) (target_position : Vec3) : Camera :=
  let xoff := xoffset * (c.MouseSensitivity * 0.1)
  let yoff := yoffset * (c.MouseSensitivity * 0.1)
  let yaw := c.Yaw - xoff
  let pitch := c.Pitch - yoff
  let alpha := degree_to_radian yaw
  let beta := degree_to_radian pitch
  let distance := distance_from_camera_to_target c.Position target_position
  let pos : Vec3 :=
    ⟨target_position.x - distance * Real.cos alpha * Real.cos beta,
     target_position.y - distance * Real.sin beta,
     target_position.z - distance * Real.sin alpha * Real.cos beta⟩
  updateCameraVectors { c with Yaw := yaw, Pitch := pitch, Position := pos }

/-- `Camera::move_camera_in_ellipsoid`: body identical to
`move_camera_in_sphere` in the source (the 3:2:2 axis ratios of its comment
are never applied). -/
def move_camera_in_ellipsoid (c : Camera) (xoffset yoffset : ℝ) (target_position : Vec3) : Camera :=
  let xoff := xoffset * (c.MouseSensitivity * 0.1)
  let yoff := yoffset * (c.MouseSensitivity * 0.1)
  let yaw := c.Yaw - xoff
  let pitch := c.Pitch - yoff
  let alpha := degree_to_radian yaw
  let beta := degree_to_radian pitch
  let distance := distance_from_camera_to_target c.Position target_position
  let pos : Vec3 :=
    ⟨target_position.x - distance * Real.cos alpha * Real.cos beta,
     target_position.y - distance * Real.sin beta,
     target_position.z - distance * Real.sin alpha * Real.cos beta⟩
  updateCameraVectors { c with Yaw := yaw, Pitch := pitch, Position := pos }

/-- `Camera::ProcessMouseScroll`: decrement `Zoom` only when it already lies
in `[1, 45]`, then saturate at 1 from below and at 45 from above, three `if`s
in sequence. -/
def ProcessMouseScroll (c : Camera) (yoffset : ℝ) : Camera :=
  let z1 := if 1 ≤ c.Zoom ∧ c.Zoom ≤ 45 then c.Zoom - yoffset else c.Zoom
  let z2 := if z1 ≤ 1 then (1 : ℝ) else z1
  let z3 := if 45 ≤ z2 then (45 : ℝ) else z2
  { c with Zoom := z3 }

end Camera

/-- A camera built by the default constructor call
`Camera(glm::vec3(0,0,0))`: origin position, `+Y` world-up, default angles. -/
def testCamera : Camera := Camera.init ⟨0, 0, 0⟩ ⟨0, 1, 0⟩ YAW PITCH

/-- The camera above after external code wrote `Zoom = 0` directly (all
fields of the class are public). -/
def badCam : Camera := { testCamera with Zoom := 0 }

/-- The front/right/up basis is orthonormal: each vector has unit length and
the pairwise dot products vanish. -/
def Camera.goodBasis (c : Camera) : Prop :=
  c.Front.norm = 1 ∧ c.Right.norm = 1 ∧ c.Up.norm = 1 ∧
  c.Front.dot c.Right = 0 ∧ c.Front.dot c.Up = 0 ∧ c.Right.dot c.Up = 0

/-- The front direction determined by the state's yaw and pitch is not
parallel to its world-up vector (the non-degeneracy hypothesis of the
orthonormality invariant). -/
def Camera.frontOk (c : Camera) : Prop :=
  ¬ Vec3.parallel (Camera.rawFront c.Yaw c.Pitch) c.WorldUp

/-- States produced by the constructor followed by any sequence of mutating
operations, where at every step the front direction stays non-parallel to
world-up. -/
inductive Camera.Reachable : Camera → Prop where
  | ctor (position up : Vec3) (yaw pitch : ℝ) :
      (Camera.init position up yaw pitch).frontOk →
      Camera.Reachable (Camera.init position up yaw pitch)
  | keyboard (c : Camera) (direction : Camera_Movement) (deltaTime : ℝ) :
      Camera.Reachable c → (c.ProcessKeyboard direction deltaTime).frontOk →
      Camera.Reachable (c.ProcessKeyboard direction deltaTime)
  | mouse (c : Camera) (xoffset yoffset : ℝ) (constrainPitch : Bool) :
      Camera.Reachable c → (c.ProcessMouseMovement xoffset yoffset constrainPitch).frontOk →
      Camera.Reachable (c.ProcessMouseMovement xoffset yoffset constrainPitch)
  | sphere (c : Camera) (xoffset yoffset : ℝ) (target : Vec3) :
      Camera.Reachable c → (c.move_camera_in_sphere xoffset yoffset target).frontOk →
      Camera.Reachable (c.move_camera_in_sphere xoffset yoffset target)
  | ellipsoid (c : Camera) (xoffset yoffset : ℝ) (target : Vec3) :
      Camera.Reachable c → (c.move_camera_in_ellipsoid xoffset yoffset target).frontOk →
      Camera.Reachable (c.move_camera_in_ellipsoid xoffset yoffset target)
  | scroll (c : Camera) (yoffset : ℝ) :
      Camera.Reachable c → (c.ProcessMouseScroll yoffset).frontOk →
      Camera.Reachable (c.ProcessMouseScroll yoffset)

/-- Saturating clamp of `x` to `[lo, hi]`, as the spec's
clamp-after-update description uses it. -/
def clamp (x lo hi : ℝ) : ℝ := min (max x lo) hi

namespace Vec3

theorem dot_comm (a b : Vec3) : a.dot b = b.dot a := by
  simp only [dot]; ring

theorem cross_dot_left (a b : Vec3) : (a.cross b).dot a = 0 := by
  simp only [cross, dot]; ring

theorem cross_dot_right (a b : Vec3) : (a.cross b).dot b = 0 := by
  simp only [cross, dot]; ring

theorem normSq_cross (a b : Vec3) :
    (a.cross b).normSq = a.normSq * b.normSq - (a.dot b) ^ 2 := by
  simp only [cross, dot, normSq]; ring

theorem normSq_nonneg (v : Vec3) : 0 ≤ v.normSq := by
  simp only [normSq, dot]
  nlinarith [sq_nonneg v.x, sq_nonneg v.y, sq_nonneg v.z]

theorem norm_sq_eq (v : Vec3) : v.norm ^ 2 = v.normSq :=
  Real.sq_sqrt (normSq_nonneg v)

theorem norm_eq_one (v : Vec3) (h : v.normSq = 1) : v.norm = 1 := by
  simp [norm, h]

theorem normSq_eq_one_of_norm (v : Vec3) (h : v.norm = 1) : v.normSq = 1 := by
  rw [← norm_sq_eq, h]; norm_num

theorem normalize_eq_self (v : Vec3) (h : v.norm = 1) : v.normalize = v := by
  simp [normalize, h]

theorem normSq_pos (v : Vec3) (h : v ≠ zero) : 0 < v.normSq := by
  rcases lt_or_eq_of_le (normSq_nonneg v) with hlt | heq
  · exact hlt
  · exfalso
    apply h
    have hx : v.x ^ 2 + v.y ^ 2 + v.z ^ 2 = 0 := by
      simp only [normSq, dot] at heq; nlinarith
    have h1 : v.x = 0 := by nlinarith [sq_nonneg v.x, sq_nonneg v.y, sq_nonneg v.z]
    have h2 : v.y = 0 := by nlinarith [sq_nonneg v.x, sq_nonneg v.y, sq_nonneg v.z]
    have h3 : v.z = 0 := by nlinarith [sq_nonneg v.x, sq_nonneg v.y, sq_nonneg v.z]
    ext <;> simp [zero, h1, h2, h3]

theorem norm_pos (v : Vec3) (h : v ≠ zero) : 0 < v.norm :=
  Real.sqrt_pos.mpr (normSq_pos v h)

theorem normSq_normalize (v : Vec3) (h : v ≠ zero) : v.normalize.normSq = 1 := by
  have hn : 0 < v.norm := norm_pos v h
  have h2 : v.norm ^ 2 = v.normSq := norm_sq_eq v
  simp only [normalize, normSq, dot] at h2 ⊢
  field_simp
  nlinarith

theorem norm_normalize (v : Vec3) (h : v ≠ zero) : v.normalize.norm = 1 :=
  norm_eq_one _ (normSq_normalize v h)

theorem dot_normalize_left (v w : Vec3) : v.normalize.dot w = v.dot w / v.norm := by
  simp only [normalize, dot]; ring

theorem dot_normalize_right (w v : Vec3) : w.dot v.normalize = w.dot v / v.norm := by
  simp only [normalize, dot]; ring

end Vec3

namespace Camera

theorem updateCameraVectors_Yaw (c : Camera) : c.updateCameraVectors.Yaw = c.Yaw := rfl

theorem updateCameraVectors_Pitch (c : Camera) : c.updateCameraVectors.Pitch = c.Pitch := rfl

theorem updateCameraVectors_WorldUp (c : Camera) : c.updateCameraVectors.WorldUp = c.WorldUp := rfl

theorem updateCameraVectors_Position (c : Camera) :
    c.updateCameraVectors.Position = c.Position := rfl

theorem updateCameraVectors_Front (c : Camera) :
    c.updateCameraVectors.Front = (rawFront c.Yaw c.Pitch).normalize := rfl

theorem updateCameraVectors_Right (c : Camera) :
    c.updateCameraVectors.Right =
      ((rawFront c.Yaw c.Pitch).normalize.cross c.WorldUp).normalize := rfl

theorem updateCameraVectors_Up (c : Camera) :
    c.updateCameraVectors.Up =
      (((rawFront c.Yaw c.Pitch).normalize.cross c.WorldUp).normalize.cross
        (rawFront c.Yaw c.Pitch).normalize).normalize := rfl

theorem normSq_rawFront (yaw pitch : ℝ) : (rawFront yaw pitch).normSq = 1 := by
  simp only [rawFront, Vec3.normSq, Vec3.dot]
  have h1 := Real.sin_sq_add_cos_sq (radians yaw)
  have h2 := Real.sin_sq_add_cos_sq (radians pitch)
  nlinarith

theorem norm_rawFront (yaw pitch : ℝ) : (rawFront yaw pitch).norm = 1 :=
  Vec3.norm_eq_one _ (normSq_rawFront yaw pitch)

theorem normalize_rawFront (yaw pitch : ℝ) :
    (rawFront yaw pitch).normalize = rawFront yaw pitch :=
  Vec3.normalize_eq_self _ (norm_rawFront yaw pitch)

/-- `updateCameraVectors` produces an orthonormal basis whenever the front
direction determined by yaw and pitch is not parallel to world-up. -/
theorem update_goodBasis (c : Camera) (h : c.frontOk) : c.updateCameraVectors.goodBasis := by
  have hFn : (rawFront c.Yaw c.Pitch).norm = 1 := norm_rawFront c.Yaw c.Pitch
  have hFnor := normalize_rawFront c.Yaw c.Pitch
  set F := rawFront c.Yaw c.Pitch with hFdef
  have hF : F.normSq = 1 := normSq_rawFront c.Yaw c.Pitch
  set W := F.cross c.WorldUp with hWdef
  have hW : W ≠ Vec3.zero := h
  set R := W.normalize with hRdef
  have hRn : R.norm = 1 := Vec3.norm_normalize W hW
  have hFR : F.dot R = 0 := by
    have hFW : F.dot W = 0 := by
      rw [Vec3.dot_comm]; exact Vec3.cross_dot_left F c.WorldUp
    rw [hRdef, Vec3.dot_normalize_right, hFW, zero_div]
  set U := R.cross F with hUdef
  have hRsq : R.normSq = 1 := Vec3.normSq_eq_one_of_norm R hRn
  have hRF : R.dot F = 0 := by rw [Vec3.dot_comm]; exact hFR
  have hUsq : U.normSq = 1 := by
    rw [hUdef, Vec3.normSq_cross, hRsq, hF, hRF]; ring
  have hUn : U.norm = 1 := Vec3.norm_eq_one U hUsq
  have hUnor : U.normalize = U := Vec3.normalize_eq_self U hUn
  have hFU : F.dot U = 0 := by
    rw [Vec3.dot_comm, hUdef]; exact Vec3.cross_dot_right R F
  have hRU : R.dot U = 0 := by
    rw [Vec3.dot_comm, hUdef]; exact Vec3.cross_dot_left R F
  refine ⟨?_, ?_, ?_, ?_, ?_, ?_⟩
  · rw [updateCameraVectors_Front, ← hFdef, hFnor]; exact hFn
  · rw [updateCameraVectors_Right, ← hFdef, hFnor, ← hWdef, ← hRdef]; exact hRn
  · rw [updateCameraVectors_Up, ← hFdef, hFnor, ← hWdef, ← hRdef, ← hUdef, hUnor]; exact hUn
  · rw [updateCameraVectors_Front, updateCameraVectors_Right, ← hFdef, hFnor,
      ← hWdef, ← hRdef]
    exact hFR
  · rw [updateCameraVectors_Front, updateCameraVectors_Up, ← hFdef, hFnor,
      ← hWdef, ← hRdef, ← hUdef, hUnor]
    exact hFU
  · rw [updateCameraVectors_Right, updateCameraVectors_Up, ← hFdef, hFnor,
      ← hWdef, ← hRdef, ← hUdef, hUnor]
    exact hRU

end Camera

/-- The spec's front formula:
`normalize (cos yaw · cos pitch, sin pitch, sin yaw · cos pitch)` with both
angles converted from degrees to radians. -/
def specFront (yaw pitch : ℝ) : Vec3 :=
  Vec3.normalize
    ⟨Real.cos (radians yaw) * Real.cos (radians pitch),
     Real.sin (radians pitch),
     Real.sin (radians yaw) * Real.cos (radians pitch)⟩

/-- The spec's right formula: `normalize (cross front worldUp)` from the
already-updated front. -/
def specRight (front worldUp : Vec3) : Vec3 := (front.cross worldUp).normalize

/-- The spec's up formula: `normalize (cross right front)` from the
already-updated right and front. -/
def specUp (right front : Vec3) : Vec3 := (right.cross front).normalize

/-- Claim C1: every camera state reachable by the constructor followed by
mutating operations, with the computed front direction never parallel to
world-up, has an orthonormal `Front`/`Right`/`Up` basis: the three vectors
have unit length and pairwise zero dot products. -/
theorem reachable_camera_basis_orthonormal (c : Camera) (h : c.Reachable) : c.goodBasis := by
  induction h with
  | ctor position up yaw pitch hok => exact Camera.update_goodBasis _ hok
  | keyboard c direction deltaTime hr hok ih => exact ih
  | mouse c xoffset yoffset constrainPitch hr hok ih => exact Camera.update_goodBasis _ hok
  | sphere c xoffset yoffset target hr hok ih => exact Camera.update_goodBasis _ hok
  | ellipsoid c xoffset yoffset target hr hok ih => exact Camera.update_goodBasis _ hok
  | scroll c yoffset hr hok ih => exact ih

/-- Witness for C1: the concrete constructor call with yaw 0 and pitch 0
yields a non-degenerate state whose basis is orthonormal. -/
theorem reachable_camera_basis_orthonormal_witness :
    (Camera.init ⟨0, 0, 0⟩ ⟨0, 1, 0⟩ 0 0).goodBasis := by
  have hok : (Camera.init ⟨0, 0, 0⟩ ⟨0, 1, 0⟩ 0 0).frontOk := by
    show ¬ Vec3.parallel (Camera.rawFront 0 0) ⟨0, 1, 0⟩
    simp only [Vec3.parallel, Camera.rawFront, Vec3.cross, Vec3.zero, radians, zero_mul,
      Real.cos_zero, Real.sin_zero, Vec3.mk.injEq]
    norm_num
  exact reachable_camera_basis_orthonormal _
    (Camera.Reachable.ctor ⟨0, 0, 0⟩ ⟨0, 1, 0⟩ 0 0 hok)

/-- Claim C2: `updateCameraVectors` sets `Front` to the spec's normalised
trigonometric formula, then `Right` from the new `Front` and `WorldUp`, then
`Up` from the new `Right` and `Front`, leaving position, world-up, yaw and
pitch unchanged, for every yaw, pitch and world-up. -/
theorem updateCameraVectors_matches_spec (c : Camera) :
    c.updateCameraVectors.Front = specFront c.Yaw c.Pitch ∧
    c.updateCameraVectors.Right = specRight c.updateCameraVectors.Front c.WorldUp ∧
    c.updateCameraVectors.Up =
      specUp c.updateCameraVectors.Right c.updateCameraVectors.Front ∧
    c.updateCameraVectors.Position = c.Position ∧
    c.updateCameraVectors.WorldUp = c.WorldUp ∧
    c.updateCameraVectors.Yaw = c.Yaw ∧
    c.updateCameraVectors.Pitch = c.Pitch :=
  ⟨rfl, rfl, rfl, rfl, rfl, rfl, rfl⟩

theorem clampPitch_eq (p : ℝ) :
    (if (if p > 89 then (89 : ℝ) else p) < -89 then (-89 : ℝ)
      else if p > 89 then (89 : ℝ) else p) = clamp p (-89) 89 := by
  simp only [clamp, min_def, max_def]
  split_ifs <;> linarith

theorem processMouseMovement_true_Pitch (c : Camera) (xoffset yoffset : ℝ) :
    (c.ProcessMouseMovement xoffset yoffset true).Pitch
      = clamp (c.Pitch + yoffset * c.MouseSensitivity) (-89) 89 := by
  show (if (if c.Pitch + yoffset * c.MouseSensitivity > 89 then (89 : ℝ)
        else c.Pitch + yoffset * c.MouseSensitivity) < -89 then (-89 : ℝ)
      else if c.Pitch + yoffset * c.MouseSensitivity > 89 then (89 : ℝ)
        else c.Pitch + yoffset * c.MouseSensitivity)
      = clamp (c.Pitch + yoffset * c.MouseSensitivity) (-89) 89
  exact clampPitch_eq _

theorem clamp_mem (x lo hi : ℝ) (h : lo ≤ hi) :
    lo ≤ clamp x lo hi ∧ clamp x lo hi ≤ hi := by
  simp only [clamp, min_def, max_def]
  constructor <;> split_ifs <;> linarith

theorem foldl_mouse_pitch_mem (offsets : List (ℝ × ℝ)) :
    ∀ s : Camera, -89 ≤ s.Pitch → s.Pitch ≤ 89 →
      -89 ≤ (offsets.foldl (fun t q => t.ProcessMouseMovement q.1 q.2 true) s).Pitch ∧
        (offsets.foldl (fun t q => t.ProcessMouseMovement q.1 q.2 true) s).Pitch ≤ 89 := by
  induction offsets with
  | nil => intro s h1 h2; exact ⟨h1, h2⟩
  | cons q rest ih =>
    intro s h1 h2
    simp only [List.foldl_cons]
    have hb : -89 ≤ (s.ProcessMouseMovement q.1 q.2 true).Pitch ∧
        (s.ProcessMouseMovement q.1 q.2 true).Pitch ≤ 89 := by
      rw [processMouseMovement_true_Pitch]
      exact clamp_mem _ _ _ (by norm_num)
    exact ih _ hb.1 hb.2

/-- Claim C3: with the pitch constraint enabled, `ProcessMouseMovement`
clamps the accumulated pitch (for any state and offsets the result equals
`clamp (Pitch + yoffset·sensitivity) (-89) 89`, so the clamp acts after
accumulation), the resulting pitch lies in `[-89, 89]`, and any further
sequence of constrained calls keeps it there. -/
theorem constrained_pitch_always_in_range :
    ∀ (c : Camera) (xoffset yoffset : ℝ),
      ((c.ProcessMouseMovement xoffset yoffset true).Pitch
          = clamp (c.Pitch + yoffset * c.MouseSensitivity) (-89) 89) ∧
      (-89 ≤ (c.ProcessMouseMovement xoffset yoffset true).Pitch ∧
        (c.ProcessMouseMovement xoffset yoffset true).Pitch ≤ 89) ∧
      ∀ offsets : List (ℝ × ℝ),
        -89 ≤ (offsets.foldl (fun t q => t.ProcessMouseMovement q.1 q.2 true)
              (c.ProcessMouseMovement xoffset yoffset true)).Pitch ∧
          (offsets.foldl (fun t q => t.ProcessMouseMovement q.1 q.2 true)
              (c.ProcessMouseMovement xoffset yoffset true)).Pitch ≤ 89 := by
  intro c xoffset yoffset
  have hp := processMouseMovement_true_Pitch c xoffset yoffset
  have hm : -89 ≤ (c.ProcessMouseMovement xoffset yoffset true).Pitch ∧
      (c.ProcessMouseMovement xoffset yoffset true).Pitch ≤ 89 := by
    rw [hp]; exact clamp_mem _ _ _ (by norm_num)
  exact ⟨hp, hm, fun offsets => foldl_mouse_pitch_mem offsets _ hm.1 hm.2⟩

theorem scroll_Zoom_mem (c : Camera) (yoffset : ℝ) :
    1 ≤ (c.ProcessMouseScroll yoffset).Zoom ∧ (c.ProcessMouseScroll yoffset).Zoom ≤ 45 := by
  simp only [Camera.ProcessMouseScroll]
  split_ifs <;> constructor <;> linarith

theorem foldl_scroll_mem (deltas : List ℝ) :
    ∀ s : Camera, 1 ≤ s.Zoom → s.Zoom ≤ 45 →
      1 ≤ (deltas.foldl Camera.ProcessMouseScroll s).Zoom ∧
        (deltas.foldl Camera.ProcessMouseScroll s).Zoom ≤ 45 := by
  induction deltas with
  | nil => intro s h1 h2; exact ⟨h1, h2⟩
  | cons d rest ih =>
    intro s h1 h2
    simp only [List.foldl_cons]
    have hb := scroll_Zoom_mem s d
    exact ih _ hb.1 hb.2

/-- Claim C4: starting from any zoom in `[1, 45]`, every `ProcessMouseScroll`
call — and any sequence of scroll deltas — leaves the zoom in `[1, 45]`;
concretely, scrolling by 50 from zoom 45 yields zoom 1. -/
theorem zoom_stays_in_range :
    ∀ (c : Camera) (yoffset : ℝ),
      (1 ≤ c.Zoom → c.Zoom ≤ 45 →
        1 ≤ (c.ProcessMouseScroll yoffset).Zoom ∧ (c.ProcessMouseScroll yoffset).Zoom ≤ 45) ∧
      (c.Zoom = 45 → (c.ProcessMouseScroll 50).Zoom = 1) ∧
      ∀ deltas : List ℝ, 1 ≤ c.Zoom → c.Zoom ≤ 45 →
        1 ≤ (deltas.foldl Camera.ProcessMouseScroll c).Zoom ∧
          (deltas.foldl Camera.ProcessMouseScroll c).Zoom ≤ 45 := by
  intro c yoffset
  refine ⟨fun _ _ => scroll_Zoom_mem c yoffset, fun h45 => ?_, fun deltas => foldl_scroll_mem deltas c⟩
  have hcond : 1 ≤ c.Zoom ∧ c.Zoom ≤ 45 := by rw [h45]; norm_num
  simp only [Camera.ProcessMouseScroll, if_pos hcond]
  rw [h45]
  norm_num

/-- Witness for C4: the default-constructed camera has zoom 45, inside the
range, and scrolling by 50 clamps it to 1. -/
theorem zoom_stays_in_range_witness :
    testCamera.Zoom = 45 ∧ (testCamera.ProcessMouseScroll 50).Zoom = 1 := by
  have h45 : testCamera.Zoom = 45 := rfl
  exact ⟨h45, (zoom_stays_in_range testCamera 50).2.1 h45⟩

/-- Claim C8 as stated is false: from a zoom already outside `[1, 45]`
(reachable because the field is public), the result differs from
`clamp (Zoom − delta) 1 45`.  With zoom 0 and delta −10 the code discards the
delta and yields 1, while the clamp expression yields 10. -/
theorem scroll_clamp_equiv_counterexample :
    ¬ ((badCam.ProcessMouseScroll (-10)).Zoom
        = clamp (badCam.Zoom - (-10)) 1 45) := by
  have hz : badCam.Zoom = 0 := rfl
  have h1 : (badCam.ProcessMouseScroll (-10)).Zoom = 1 := by
    simp only [Camera.ProcessMouseScroll, hz]
    norm_num
  have h2 : clamp (badCam.Zoom - (-10)) 1 45 = 10 := by
    rw [hz]; simp only [clamp]; norm_num
  rw [h1, h2]
  norm_num

/-- Claim C8 (amended): for every starting zoom in `[1, 45]` and every scroll
delta, `ProcessMouseScroll` leaves the zoom equal to
`clamp (Zoom − delta) 1 45`: the conditional update-then-clamp code equals
straightforward post-update clamping on in-range states. -/
theorem scroll_equals_clamp_in_range (c : Camera) (yoffset : ℝ)
    (h1 : 1 ≤ c.Zoom) (h2 : c.Zoom ≤ 45) :
    (c.ProcessMouseScroll yoffset).Zoom = clamp (c.Zoom - yoffset) 1 45 := by
  have hcond : 1 ≤ c.Zoom ∧ c.Zoom ≤ 45 := ⟨h1, h2⟩
  simp only [Camera.ProcessMouseScroll, if_pos hcond, clamp, min_def, max_def]
  split_ifs <;> linarith

/-- Witness for the amended C8: from the default zoom 45, scrolling by 3
yields `clamp (45 − 3) 1 45 = 42`. -/
theorem scroll_equals_clamp_in_range_witness :
    (testCamera.ProcessMouseScroll 3).Zoom = clamp (testCamera.Zoom - 3) 1 45 :=
  scroll_equals_clamp_in_range testCamera 3
    (by rw [show testCamera.Zoom = 45 from rfl]; norm_num)
    (le_of_eq (show testCamera.Zoom = 45 from rfl))

/-- Claim C10: if `ProcessMouseScroll` runs while the zoom is outside
`[1, 45]`, the delta is discarded and the zoom is set to the violated bound
(1 from below, 45 from above); after any call, from any prior state, the
zoom lies in `[1, 45]`. -/
theorem scroll_out_of_range_clamps :
    ∀ (c : Camera) (yoffset : ℝ),
      (c.Zoom < 1 → (c.ProcessMouseScroll yoffset).Zoom = 1) ∧
      (c.Zoom > 45 → (c.ProcessMouseScroll yoffset).Zoom = 45) ∧
      (1 ≤ (c.ProcessMouseScroll yoffset).Zoom ∧ (c.ProcessMouseScroll yoffset).Zoom ≤ 45) := by
  intro c yoffset
  refine ⟨fun hlo => ?_, fun hhi => ?_, scroll_Zoom_mem c yoffset⟩
  · have hcond : ¬ (1 ≤ c.Zoom ∧ c.Zoom ≤ 45) := by
      intro h; linarith [h.1]
    simp only [Camera.ProcessMouseScroll, if_neg hcond]
    split_ifs <;> linarith
  · have hcond : ¬ (1 ≤ c.Zoom ∧ c.Zoom ≤ 45) := by
      intro h; linarith [h.2]
    simp only [Camera.ProcessMouseScroll, if_neg hcond]
    split_ifs <;> linarith

/-- Witness for C10: with zoom forced to 0, a scroll by 5 restores the lower
bound 1. -/
theorem scroll_out_of_range_clamps_witness :
    badCam.Zoom < 1 ∧ (badCam.ProcessMouseScroll 5).Zoom = 1 := by
  have hz : badCam.Zoom < 1 := by rw [show badCam.Zoom = 0 from rfl]; norm_num
  exact ⟨hz, (scroll_out_of_range_clamps badCam 5).1 hz⟩

theorem dist_to_sphere_point (t : Vec3) (d a b : ℝ) (hd : 0 ≤ d) :
    Camera.distance_from_camera_to_target
      ⟨t.x - d * Real.cos a * Real.cos b,
       t.y - d * Real.sin b,
       t.z - d * Real.sin a * Real.cos b⟩ t = d := by
  simp only [Camera.distance_from_camera_to_target]
  have h1 := Real.sin_sq_add_cos_sq a
  have h2 := Real.sin_sq_add_cos_sq b
  have key : (t.x - d * Real.cos a * Real.cos b - t.x) * (t.x - d * Real.cos a * Real.cos b - t.x)
      + (t.y - d * Real.sin b - t.y) * (t.y - d * Real.sin b - t.y)
      + (t.z - d * Real.sin a * Real.cos b - t.z) * (t.z - d * Real.sin a * Real.cos b - t.z)
      = d ^ 2 := by
    linear_combination (d ^ 2 * Real.cos b ^ 2) * h1 + d ^ 2 * h2
  rw [key]
  exact Real.sqrt_sq hd

/-- Claim C5: `move_camera_in_sphere` preserves the exact Euclidean distance
from `Position` to the target point: the camera lands back on the sphere of
the pre-call radius centred at the target, for every state and offsets. -/
theorem sphere_preserves_distance (c : Camera) (xoffset yoffset : ℝ) (target : Vec3) :
    Camera.distance_from_camera_to_target
        (c.move_camera_in_sphere xoffset yoffset target).Position target
      = Camera.distance_from_camera_to_target c.Position target := by
  have hpos : (c.move_camera_in_sphere xoffset yoffset target).Position
      = ⟨target.x - Camera.distance_from_camera_to_target c.Position target
            * Real.cos (Camera.degree_to_radian (c.Yaw - xoffset * (c.MouseSensitivity * 0.1)))
            * Real.cos (Camera.degree_to_radian (c.Pitch - yoffset * (c.MouseSensitivity * 0.1))),
         target.y - Camera.distance_from_camera_to_target c.Position target
            * Real.sin (Camera.degree_to_radian (c.Pitch - yoffset * (c.MouseSensitivity * 0.1))),
         target.z - Camera.distance_from_camera_to_target c.Position target
            * Real.sin (Camera.degree_to_radian (c.Yaw - xoffset * (c.MouseSensitivity * 0.1)))
            * Real.cos (Camera.degree_to_radian (c.Pitch - yoffset * (c.MouseSensitivity * 0.1)))⟩ :=
    rfl
  rw [hpos]
  exact dist_to_sphere_point target _ _ _ (Real.sqrt_nonneg _)

/-- Claim C6: `move_camera_in_ellipsoid` and `move_camera_in_sphere` denote
the same state transition: for every starting state and inputs they return
identical camera states (no 3:2:2 per-axis scaling anywhere). -/
theorem ellipsoid_eq_sphere (c : Camera) (xoffset yoffset : ℝ) (target : Vec3) :
    c.move_camera_in_ellipsoid xoffset yoffset target
      = c.move_camera_in_sphere xoffset yoffset target := rfl

/-- Claim C7: `move_camera_in_sphere` subtracts `offset · sensitivity · 0.1`
from yaw and pitch, converts both with `degree_to_radian` for the
repositioning, and never clamps the pitch: some input drives the pitch
outside `[-89, 89]`. -/
theorem sphere_angle_update_no_clamp :
    (∀ (c : Camera) (xoffset yoffset : ℝ) (target : Vec3),
      (c.move_camera_in_sphere xoffset yoffset target).Yaw
          = c.Yaw - xoffset * c.MouseSensitivity * 0.1 ∧
      (c.move_camera_in_sphere xoffset yoffset target).Pitch
          = c.Pitch - yoffset * c.MouseSensitivity * 0.1 ∧
      (c.move_camera_in_sphere xoffset yoffset target).Position
        = ⟨target.x - Camera.distance_from_camera_to_target c.Position target
              * Real.cos (Camera.degree_to_radian (c.Yaw - xoffset * c.MouseSensitivity * 0.1))
              * Real.cos (Camera.degree_to_radian (c.Pitch - yoffset * c.MouseSensitivity * 0.1)),
           target.y - Camera.distance_from_camera_to_target c.Position target
              * Real.sin (Camera.degree_to_radian (c.Pitch - yoffset * c.MouseSensitivity * 0.1)),
           target.z - Camera.distance_from_camera_to_target c.Position target
              * Real.sin (Camera.degree_to_radian (c.Yaw - xoffset * c.MouseSensitivity * 0.1))
              * Real.cos (Camera.degree_to_radian (c.Pitch - yoffset * c.MouseSensitivity * 0.1))⟩) ∧
    ∃ (c : Camera) (xoffset yoffset : ℝ) (target : Vec3),
      (c.move_camera_in_sphere xoffset yoffset target).Pitch < -89 := by
  constructor
  · intro c xoffset yoffset target
    have hy : c.Yaw - xoffset * (c.MouseSensitivity * 0.1)
        = c.Yaw - xoffset * c.MouseSensitivity * 0.1 := by ring
    have hp : c.Pitch - yoffset * (c.MouseSensitivity * 0.1)
        = c.Pitch - yoffset * c.MouseSensitivity * 0.1 := by ring
    refine ⟨?_, ?_, ?_⟩
    · rw [← hy]; rfl
    · rw [← hp]; rfl
    · rw [← hy, ← hp]; rfl
  · refine ⟨testCamera, 0, 100000, ⟨0, 0, 0⟩, ?_⟩
    have hpv : (testCamera.move_camera_in_sphere 0 100000 ⟨0, 0, 0⟩).Pitch
        = testCamera.Pitch - 100000 * (testCamera.MouseSensitivity * 0.1) := rfl
    rw [hpv, show testCamera.Pitch = 0 from rfl,
      show testCamera.MouseSensitivity = 0.1 from rfl]
    norm_num

/-- Claim C9: `ProcessKeyboard FORWARD t` followed by
`ProcessKeyboard BACKWARD t` restores the whole camera state exactly: each
call only translates `Position` by `±Front · (MovementSpeed · t)`. -/
theorem keyboard_forward_backward_roundtrip (c : Camera) (deltaTime : ℝ) :
    (c.ProcessKeyboard Camera_Movement.FORWARD deltaTime).ProcessKeyboard
        Camera_Movement.BACKWARD deltaTime = c := by
  have h : (c.ProcessKeyboard Camera_Movement.FORWARD deltaTime).ProcessKeyboard
        Camera_Movement.BACKWARD deltaTime
      = { c with Position :=
            ((c.Position.add (Vec3.smul (c.MovementSpeed * deltaTime) c.Front)).sub
              (Vec3.smul (c.MovementSpeed * deltaTime) c.Front)) } := rfl
  have hp : (c.Position.add (Vec3.smul (c.MovementSpeed * deltaTime) c.Front)).sub
      (Vec3.smul (c.MovementSpeed * deltaTime) c.Front) = c.Position := by
    simp only [Vec3.add, Vec3.sub, Vec3.smul]
    ext <;> simp
  rw [h, hp]

end
